import Mathlib

/-!
Shallow embedding of the telemetry stream and playback engine of the
`sounds-of-the-stratosphere` repository (source files
`src/hooks/useObservationStream.ts` and `src/hooks/useObservationPlayback.ts`).

JavaScript numbers are idealised as rationals (for values that the code
compares, floors or parses) and as real numbers (for the physical payload
fields, which flow through `Math.hypot`, `Math.sin`, `Math.cos`).
Platform primitives with no arithmetic content (ISO-8601 date formatting
and parsing, `crypto.randomUUID`, `Date.now`, number-to-string coercion,
`Math.random`) are supplied as parameters of the embedding.
-/

/-- A JSON-decoded JavaScript value as it can appear in a raw observation
record (`Record<string, unknown>` populated by `JSON.parse`): `undefined`
(absent key), `null`, a boolean, a finite number, or a string.  Objects and
arrays are outside the model. -/
inductive JSVal where
  | vmissing : JSVal
  | vnull : JSVal
  | vbool : Bool → JSVal
  | vnum : ℚ → JSVal
  | vstr : String → JSVal
deriving DecidableEq

/-- Numeric value of a run of decimal digit characters. -/
def digitsToNat (cs : List Char) : ℕ :=
  cs.foldl (fun a c => a * 10 + (c.toNat - 48)) 0

/-- All characters are decimal digits. -/
def allDigits (cs : List Char) : Bool :=
  cs.all (fun c => c.isDigit)

/-- Unsigned decimal literal: digits with at most one decimal point,
at least one digit overall (`"12"`, `"12.5"`, `".5"`, `"5."`). -/
def parseUnsignedDec (cs : List Char) : Option ℚ :=
  match cs.span (fun c => c ≠ '.') with
  | (intPart, []) =>
      if intPart ≠ [] ∧ allDigits intPart then some (digitsToNat intPart) else none
  | (intPart, _dot :: fracPart) =>
      if (intPart ≠ [] ∨ fracPart ≠ []) ∧ allDigits intPart = true ∧ allDigits fracPart = true
          ∧ fracPart.all (fun c => c ≠ '.') = true
      then some ((digitsToNat intPart : ℚ) + (digitsToNat fracPart : ℚ) / (10 : ℚ) ^ fracPart.length)
      else none

/-- JavaScript `Number(s)` for a string `s`, on the fragment of the grammar
the model covers: the empty string converts to `0`; optionally signed decimal
literals convert to their value; everything else is `NaN` (`none`).
Whitespace trimming, exponents, hex literals and `"Infinity"` are outside
the model. -/
def parseJSNumberString (s : String) : Option ℚ :=
  match s.data with
  | [] => some 0
  | '-' :: rest => (parseUnsignedDec rest).map (fun q => -q)
  | '+' :: rest => parseUnsignedDec rest
  | cs => parseUnsignedDec cs

/-- JavaScript `Number(v)` restricted to finite results: `some q` when the
conversion yields the finite number `q`, `none` when it yields `NaN`.
Per the ECMAScript `ToNumber` rules: `undefined ↦ NaN`, `null ↦ 0`,
`false ↦ 0`, `true ↦ 1`, strings are parsed. -/
def jsToNumber : JSVal → Option ℚ
  | .vmissing => none
  | .vnull => some 0
  | .vbool b => some (if b then 1 else 0)
  | .vnum x => some x
  | .vstr s => parseJSNumberString s

/-- JavaScript nullish coalescing `a ?? b`. -/
def jsNullish (a b : JSVal) : JSVal :=
  match a with
  | .vmissing => b
  | .vnull => b
  | _ => a

/-- JavaScript `Math.min(Math.max(value, lo), hi)` — the `clamp` helper that
appears verbatim in both source files. -/
def jsClamp {α : Type} [LinearOrder α] (value lo hi : α) : α :=
  min (max value lo) hi

/-- JavaScript `Math.round` on a finite number: half-up rounding. -/
def jsRound (x : ℚ) : ℤ := ⌊x + 1 / 2⌋

/-- JavaScript truncation toward zero (`ToIntegerOrInfinity`), used by the
`Date` constructor to clip a fractional milliseconds value. -/
def jsTrunc (x : ℚ) : ℤ := if x < 0 then ⌈x⌉ else ⌊x⌋

/-- Truncation toward zero on the reals, for the synthetic generator's
fractional timestamps. -/
noncomputable def realTrunc (x : ℝ) : ℤ := if x < 0 then ⌈x⌉ else ⌊x⌋

/-- `Math.hypot(u, v)` in ideal real arithmetic. -/
noncomputable def jsHypot (u v : ℝ) : ℝ := Real.sqrt (u ^ 2 + v ^ 2)

/-- The canonical observation (`DerivedObservation` in the source).  The
`date` field of the source is represented by its epoch value
`instantMs = date.getTime()`; string renderings of dates live in
`timestamp`. -/
structure Observation where
  id : String
  missionId : String
  timestamp : String
  instantMs : ℤ
  altitude : ℝ
  temperature : ℝ
  humidity : ℝ
  speed_u : ℝ
  speed_v : ℝ
  windSpeed : ℝ

/-- Platform primitives the stream hook closes over: ISO date formatting
(`Date.prototype.toISOString`), ISO date parsing (`new Date(string).getTime()`
for non-numeric strings), the current clock (`Date.now()`), fresh random
identifiers (`cryptoRandomId`, one per normalized record), and JavaScript
number-to-string coercion. -/
structure JSEnv where
  toIso : ℤ → String
  parseIsoMs : String → ℤ
  nowMs : ℤ
  freshId : ℕ → String
  numString : ℝ → String

/-- One raw record (`RawObservation = Record<string, unknown>`), restricted
to the keys the normalizer actually reads; an absent key is `vmissing`. -/
structure RawObservation where
  id : JSVal := .vmissing
  pk : JSVal := .vmissing
  timestamp : JSVal := .vmissing
  datetime : JSVal := .vmissing
  observation_time : JSVal := .vmissing
  mission_id : JSVal := .vmissing
  mission : JSVal := .vmissing
  altitude : JSVal := .vmissing
  altitude_m : JSVal := .vmissing
  altitude_agl : JSVal := .vmissing
  altitude_from_gps : JSVal := .vmissing
  temperature : JSVal := .vmissing
  temperature_c : JSVal := .vmissing
  temp : JSVal := .vmissing
  temperature_celsius : JSVal := .vmissing
  humidity : JSVal := .vmissing
  relative_humidity : JSVal := .vmissing
  rh : JSVal := .vmissing
  humidity_percent : JSVal := .vmissing
  speed_u : JSVal := .vmissing
  wind_u : JSVal := .vmissing
  u_component : JSVal := .vmissing
  speed_v : JSVal := .vmissing
  wind_v : JSVal := .vmissing
  v_component : JSVal := .vmissing

/-- `coalesceNumber(values, fallback)`: walk the candidate list, return the
first value whose JavaScript `Number()` conversion is finite, else the
fallback. -/
def coalesceNumber : List JSVal → ℚ → ℚ
  | [], fallback => fallback
  | v :: rest, fallback =>
      match jsToNumber v with
      | some num => num
      | none => coalesceNumber rest fallback

/-- `String(v)` — JavaScript string coercion of a raw value. -/
def jsToString (env : JSEnv) : JSVal → String
  | .vmissing => "undefined"
  | .vnull => "null"
  | .vbool b => if b then "true" else "false"
  | .vnum x => env.numString (x : ℝ)
  | .vstr s => s

/-- The epoch-milliseconds threshold `1e12` below which a numeric timestamp
is interpreted as seconds. -/
def msThreshold : ℚ := 10 ^ 12

/-- Seconds-vs-milliseconds disambiguation used by `resolveTimestamp`:
`value > 1e12 ? value : value * 1000`. -/
def numToMs (x : ℚ) : ℚ := if x > msThreshold then x else x * 1000

/-- `resolveTimestamp` together with the subsequent `new Date(timestamp)`:
returns the resolved timestamp string and its epoch value.  A finite number
goes through the seconds/milliseconds rule and ISO formatting; a string is
first tried numerically with the same rule and otherwise passed through (its
epoch value given by the platform date parser); any other value falls back
to the current time.  (`value instanceof Date` is unreachable for
JSON-decoded input and is absorbed by the fallback arm.) -/
def resolveTimestampPair (env : JSEnv) (v : JSVal) : String × ℤ :=
  match v with
  | .vnum x =>
      let ms := jsTrunc (numToMs x)
      (env.toIso ms, ms)
  | .vstr s =>
      match parseJSNumberString s with
      | some q =>
          let ms := jsTrunc (numToMs q)
          (env.toIso ms, ms)
      | none => (s, env.parseIsoMs s)
  | _ => (env.toIso env.nowMs, env.nowMs)

/-- `normalizeObservation(raw)`: id and mission resolution by nullish
coalescing, timestamp resolution, and first-finite-wins numeric coalescing
over the fixed alias lists; `windSpeed` is recomputed as
`Math.hypot(speed_u, speed_v)`.  `freshId` stands for the
`cryptoRandomId()` call made when no id-like field is present. -/
noncomputable def normalizeObservation (env : JSEnv) (freshId : String)
    (raw : RawObservation) : Observation :=
  let obsId := jsToString env
    (jsNullish raw.id (jsNullish raw.pk (jsNullish raw.timestamp (.vstr freshId))))
  let obsMission := jsToString env
    (jsNullish raw.mission_id (jsNullish raw.mission (.vstr "unknown")))
  let tsPair := resolveTimestampPair env
    (jsNullish raw.timestamp (jsNullish raw.datetime
      (jsNullish raw.observation_time (.vnum (env.nowMs : ℚ)))))
  let altitude : ℚ :=
    coalesceNumber [raw.altitude, raw.altitude_m, raw.altitude_agl, raw.altitude_from_gps] 0
  let temperature : ℚ :=
    coalesceNumber [raw.temperature, raw.temperature_c, raw.temp, raw.temperature_celsius] 0
  let humidity : ℚ :=
    coalesceNumber [raw.humidity, raw.relative_humidity, raw.rh, raw.humidity_percent] 0
  let speed_u : ℚ := coalesceNumber [raw.speed_u, raw.wind_u, raw.u_component] 0
  let speed_v : ℚ := coalesceNumber [raw.speed_v, raw.wind_v, raw.v_component] 0
  { id := obsId
    missionId := obsMission
    timestamp := tsPair.1
    instantMs := tsPair.2
    altitude := (altitude : ℝ)
    temperature := (temperature : ℝ)
    humidity := (humidity : ℝ)
    speed_u := (speed_u : ℝ)
    speed_v := (speed_v : ℝ)
    windSpeed := jsHypot (speed_u : ℝ) (speed_v : ℝ) }

/-- `randRange(min, max)` given the `Math.random()` draw `r`:
`r * (max - min) + min`. -/
noncomputable def randRange (lo hi : ℝ) (r : ℝ) : ℝ := r * (hi - lo) + lo

/-- `easeInOut(t) = 0.5 * (1 - cos(π * clamp(t, 0, 1)))`. -/
noncomputable def easeInOut (t : ℝ) : ℝ :=
  0.5 * (1 - Real.cos (Real.pi * jsClamp t 0 1))

/-- `buildSyntheticObservations(startIso, count)`.  `startMs` is
`new Date(startIso).getTime()`; `rand i k` is the value returned by the
`k`-th `Math.random()` call made while building element `i` (the source
makes six draws per element, in the order: timestamp jitter, altitude,
temperature, humidity, wind speed, direction). -/
noncomputable def buildSyntheticObservations (env : JSEnv) (startMs : ℤ) (count : ℕ)
    (rand : ℕ → ℕ → ℝ) : List Observation :=
  let durationMs : ℝ := 24 * 60 * 60 * 1000
  let step : ℝ := durationMs / (max count 1 : ℕ)
  let missionId : String := "windborne-sim"
  (List.range count).map fun (index : ℕ) =>
    let timestampMs : ℝ :=
      (startMs : ℝ) + (index : ℝ) * step + randRange (-2) 2 (rand index 0) * 60 * 1000
    let progress : ℝ := (index : ℝ) / (max 1 (count - 1) : ℕ)
    let altitude : ℝ := 500 + easeInOut progress * 29000 + randRange (-800) 800 (rand index 1)
    let temperature : ℝ := -65 + progress * 40 + randRange (-5) 5 (rand index 2)
    let humidity : ℝ :=
      jsClamp (25 + Real.sin (progress * Real.pi * 4) * 30 + randRange (-5) 5 (rand index 3)) 5 95
    let windSpeed : ℝ :=
      jsClamp (8 + Real.cos (progress * Real.pi * 3) * 18 + randRange (-3) 3 (rand index 4)) 2 60
    let direction : ℝ := progress * Real.pi * 2 + randRange (-0.3) 0.3 (rand index 5)
    let speed_u : ℝ := Real.cos direction * windSpeed
    let speed_v : ℝ := Real.sin direction * windSpeed
    { id := missionId ++ "-" ++ env.numString timestampMs
      missionId := missionId
      timestamp := env.toIso (realTrunc timestampMs)
      instantMs := realTrunc timestampMs
      altitude := altitude
      temperature := temperature
      humidity := humidity
      speed_u := speed_u
      speed_v := speed_v
      windSpeed := windSpeed }

/-- Merge key used by `mergeChronologically`: `obs.id || obs.timestamp` —
the id unless it is the empty string (the only falsy string), else the
timestamp. -/
def mergeKey (o : Observation) : String :=
  if o.id = "" then o.timestamp else o.id

/-- One entry of the insertion-ordered `Map` built by
`mergeChronologically`. -/
abbrev MapEntry := String × Observation

/-- Keys of the map, in insertion order. -/
def keysOf (m : List MapEntry) : List String := m.map Prod.fst

/-- `Map.prototype.set`: replace the value in place if the key is present,
otherwise append the new entry at the end. -/
def mapSet : List MapEntry → String → Observation → List MapEntry
  | [], k, v => [(k, v)]
  | (k1, v1) :: rest, k, v =>
      if k1 = k then (k, v) :: rest else (k1, v1) :: mapSet rest k v

/-- The `for (const obs of l) merged.set(obs.id || obs.timestamp, obs)`
loop, starting from map `m`. -/
def mapSetAll (m : List MapEntry) (l : List Observation) : List MapEntry :=
  l.foldl (fun acc o => mapSet acc (mergeKey o) o) m

/-- `Map.prototype.get` (first entry with the key; entries built by
`mapSet` have unique keys). -/
def mapGet (k : String) : List MapEntry → Option Observation
  | [] => none
  | (k1, v1) :: rest => if k1 = k then some v1 else mapGet k rest

/-- Last element of `l` whose merge key is `k` — the value that wins after
all `Map.set` overwrites. -/
def lastWithKey (k : String) : List Observation → Option Observation
  | [] => none
  | o :: rest =>
      match lastWithKey k rest with
      | some v => some v
      | none => if mergeKey o = k then some o else none

/-- The sort order of the final `.sort((a, b) => a.date.getTime() - b.date.getTime())`:
non-decreasing epoch instants. -/
def obsLE (a b : Observation) : Prop := a.instantMs ≤ b.instantMs

instance : DecidableRel obsLE := fun a b => Int.decLe a.instantMs b.instantMs

instance : IsTotal Observation obsLE := ⟨fun a b => Int.le_total a.instantMs b.instantMs⟩

instance : IsTrans Observation obsLE := ⟨fun _ _ _ h1 h2 => Int.le_trans h1 h2⟩

/-- `mergeChronologically(current, incoming)`: insert `current` then
`incoming` into an insertion-ordered map keyed by `id || timestamp`
(overwriting on duplicate key), then sort the values by instant ascending.
JavaScript's `Array.prototype.sort` is stable; it is modelled by the stable
`List.insertionSort`. -/
def mergeChronologically (current incoming : List Observation) : List Observation :=
  ((mapSetAll (mapSetAll [] current) incoming).map Prod.snd).insertionSort obsLE

/-- Engine status (`StreamStatus` in the source). -/
inductive StreamStatus where
  | idle : StreamStatus
  | loading : StreamStatus
  | ready : StreamStatus
  | error : StreamStatus
deriving DecidableEq

/-- The mutable state owned by `useObservationStream`:  the resident series,
status, error message, `lastUpdated`, `lastTimestampRef`, `hasDataRef`, and
the fetch cursor `cursorRef` (a JavaScript number, so rational in the
model). -/
structure StreamState where
  observations : List Observation
  status : StreamStatus
  error : Option String
  lastUpdated : Option ℤ
  lastTimestamp : Option String
  hasData : Bool
  cursor : ℚ

/-- Outcome of one `fetchBatch` attempt as seen by `pull`: either the parsed
response (raw records plus the optional numeric `next_since` hint), or a
thrown error (missing credentials, non-2xx status, or malformed JSON). -/
inductive FetchOutcome where
  | success : List RawObservation → Option ℚ → FetchOutcome
  | failure : String → FetchOutcome

/-- `applyCursorAdvance(normalized, nextSince)`: if the batch is non-empty,
the cursor becomes `Math.floor(last.date.getTime() / 1000) + 1` for the
**last** element of the batch and `lastTimestampRef` is updated; otherwise a
numeric `next_since` hint is adopted verbatim; otherwise nothing changes. -/
def applyCursorAdvance (st : StreamState) (normalized : List Observation)
    (nextSince : Option ℚ) : StreamState :=
  match normalized.getLast? with
  | some last =>
      { st with lastTimestamp := some last.timestamp
                cursor := (⌊(last.instantMs : ℚ) / 1000⌋ : ℤ) + 1 }
  | none =>
      match nextSince with
      | some n => { st with cursor := n }
      | none => st

/-- `ingest(incoming)`: a no-op on an empty batch, otherwise merge into the
resident series, stamp `lastUpdated`, and mark that data exists. -/
def ingest (env : JSEnv) (st : StreamState) (incoming : List Observation) : StreamState :=
  if incoming.isEmpty then st
  else
    { st with observations := mergeChronologically st.observations incoming
              lastUpdated := some env.nowMs
              hasData := true }

/-- The degraded-mode message attached when the synthetic fallback is
activated. -/
def degradedMessage : String :=
  "WindBorne API unavailable — playing a simulated mission inspired by recent flights."

/-- Per-poll configuration: the `limit` option (the synthetic generator's
element count), the lookback origin `sinceRef` as epoch milliseconds, and
the random draws consumed by the synthetic generator. -/
structure PollConfig where
  limit : ℕ
  sinceMs : ℤ
  rand : ℕ → ℕ → ℝ

/-- One `pull()`: upgrade a non-`ready` status to `loading`, then either —
on success — normalize the raw records, advance the cursor, ingest, and
finish `ready` with no error; or — on failure — fall back to the synthetic
series (when no data has ever been ingested) finishing `ready` with the
degraded message, or keep the series and finish in the `error` status with
the thrown message. -/
noncomputable def pull (env : JSEnv) (cfg : PollConfig) (st : StreamState)
    (outcome : FetchOutcome) : StreamState :=
  let st0 := { st with status := if st.status = .ready then .ready else .loading }
  match outcome with
  | .success rawList nextSince =>
      let normalized := rawList.mapIdx fun i r => normalizeObservation env (env.freshId i) r
      let st1 := applyCursorAdvance st0 normalized nextSince
      let st2 := ingest env st1 normalized
      { st2 with status := .ready, error := none }
  | .failure msg =>
      if st0.hasData then
        { st0 with error := some msg, status := .error }
      else
        { st0 with observations := buildSyntheticObservations env cfg.sinceMs cfg.limit cfg.rand
                   lastUpdated := some env.nowMs
                   hasData := true
                   status := .ready
                   error := some degradedMessage }

/-- `MIN_DELAY_MS` of `useObservationPlayback`. -/
def MIN_DELAY_MS : ℚ := 400

/-- `MAX_DELAY_MS` of `useObservationPlayback`. -/
def MAX_DELAY_MS : ℚ := 10000

/-- `safeSpeed = Math.max(0.25, speed)`. -/
def safeSpeed (speed : ℚ) : ℚ := max (1 / 4) speed

/-- The delay scheduled by the playback effect: `none` when not playing,
when the slice has fewer than two elements, or when there is no next
element; otherwise `clamp(delta / safeSpeed, MIN_DELAY_MS, MAX_DELAY_MS)`
with `delta` the instant gap to the next element. -/
def scheduledDelay (observations : List Observation) (isPlaying : Bool) (index : ℕ)
    (speed : ℚ) : Option ℚ :=
  if isPlaying = false ∨ observations.length < 2 then none
  else
    match observations[index]?, observations[index + 1]? with
    | some current, some next =>
        some (jsClamp (((next.instantMs - current.instantMs : ℤ) : ℚ) / safeSpeed speed)
          MIN_DELAY_MS MAX_DELAY_MS)
    | _, _ => none

/-- The timer callback: `setIndex(prev => Math.min(prev + 1, length - 1))`. -/
def advanceIndex (len : ℕ) (i : ℤ) : ℤ := min (i + 1) ((len : ℤ) - 1)

/-- `stepForward`: a no-op on an empty slice, else
`Math.min(prev + 1, length - 1)`. -/
def stepForward (len : ℕ) (i : ℤ) : ℤ :=
  if len = 0 then i else min (i + 1) ((len : ℤ) - 1)

/-- `stepBackward`: `Math.max(0, prev - 1)`. -/
def stepBackward (i : ℤ) : ℤ := max 0 (i - 1)

/-- `setProgress(value)`: a no-op on an empty slice, else
`Math.round(clamp(value, 0, 1) * (length - 1))`. -/
def setProgress (len : ℕ) (i : ℤ) (p : ℚ) : ℤ :=
  if len = 0 then i else jsRound (jsClamp p 0 1 * ((len : ℚ) - 1))

/-- The slice-length effect: on an empty slice the index resets to `0`,
otherwise `setIndex(current => Math.min(current, length - 1))`. -/
def reclampIndex (len : ℕ) (i : ℤ) : ℤ :=
  if len = 0 then 0 else min i ((len : ℤ) - 1)

/-- Spec-side (claim C2) cursor rule, following the claim's words: with at
least one record, `floor(max(observed instants in ms) / 1000) + 1`; with no
record but a numeric hint, the hint; otherwise unchanged. -/
def maxInstantMs : List Observation → ℤ
  | [] => 0
  | o :: rest => rest.foldl (fun m x => max m x.instantMs) o.instantMs

/-- Spec-side (claim C2) cursor after one successful fetch. -/
def specCursorAfterFetch (cursor : ℚ) (normalized : List Observation)
    (nextSince : Option ℚ) : ℚ :=
  match normalized with
  | [] =>
      match nextSince with
      | some n => n
      | none => cursor
  | _ => ((⌊(maxInstantMs normalized : ℚ) / 1000⌋ : ℤ) : ℚ) + 1

/-- Spec-side (claim C9) reading of a candidate value "whose content is a
finite number — with numeric strings yielding the parsed numeric value": a
number field itself, or a non-empty numeric string; `null`, booleans and the
empty string do not hold a finite number. -/
def specContentNumber : JSVal → Option ℚ
  | .vnum x => some x
  | .vstr s => if s = "" then none else parseJSNumberString s
  | _ => none

/-- Spec-side (claim C9) coalesce: value of the first candidate holding a
finite number, else the fallback. -/
def specCoalesce (values : List JSVal) (fallback : ℚ) : ℚ :=
  (values.findSome? specContentNumber).getD fallback

/-- A concrete platform environment for witnesses and counterexamples. -/
def env0 : JSEnv :=
  { toIso := fun _ => ""
    parseIsoMs := fun _ => 0
    nowMs := 0
    freshId := fun _ => ""
    numString := fun _ => "" }

/-- A concrete poll configuration for witnesses and counterexamples. -/
noncomputable def cfg0 : PollConfig :=
  { limit := 1, sinceMs := 0, rand := fun _ _ => 0 }

/-- An observation with the given id, timestamp and instant and zero
physical payload, for witnesses and counterexamples. -/
def obsAt (id timestamp : String) (ms : ℤ) : Observation :=
  { id := id
    missionId := ""
    timestamp := timestamp
    instantMs := ms
    altitude := 0
    temperature := 0
    humidity := 0
    speed_u := 0
    speed_v := 0
    windSpeed := 0 }

/-- An idle empty engine state, for witnesses and counterexamples. -/
def st0 : StreamState :=
  { observations := []
    status := .idle
    error := none
    lastUpdated := none
    lastTimestamp := none
    hasData := false
    cursor := 0 }

/-- A ready engine state holding one observation, for witnesses and
counterexamples. -/
def stReady : StreamState :=
  { observations := [obsAt "a" "t" 0]
    status := .ready
    error := none
    lastUpdated := none
    lastTimestamp := none
    hasData := true
    cursor := 0 }

/-- A raw record whose first altitude candidate is `null` and whose second
is the number `7`, for the C9 counterexample. -/
def rawNull : RawObservation :=
  { altitude := .vnull, altitude_m := .vnum 7 }

/-- The three-element slice at instants 0 s, 10 s and 30 s from the spec's
playback example. -/
def exampleSlice : List Observation :=
  [obsAt "a" "t0" 0, obsAt "b" "t1" 10000, obsAt "c" "t2" 30000]

/-- The Series data-model invariant: sorted non-decreasing by instant, with
pairwise distinct merge keys. -/
def SeriesInvariant (l : List Observation) : Prop :=
  l.Sorted obsLE ∧ (l.map mergeKey).Nodup

theorem keysOf_nil : keysOf [] = [] := rfl

theorem keysOf_cons (e : MapEntry) (m : List MapEntry) :
    keysOf (e :: m) = e.1 :: keysOf m := rfl

theorem keysOf_mapSet (m : List MapEntry) (k : String) (v : Observation) :
    keysOf (mapSet m k v) = if k ∈ keysOf m then keysOf m else keysOf m ++ [k] := by
  induction m with
  | nil => simp [mapSet, keysOf]
  | cons e rest ih =>
    obtain ⟨k1, v1⟩ := e
    simp only [keysOf] at ih
    by_cases h : k1 = k
    · subst h
      simp [mapSet, keysOf]
    · have hne : ¬ k = k1 := fun hk => h hk.symm
      by_cases h2 : k ∈ List.map Prod.fst rest
      · simp [mapSet, h, keysOf, ih, h2, hne]
      · simp [mapSet, h, keysOf, ih, h2, hne]

theorem mem_keysOf_mapSet (m : List MapEntry) (k : String) (v : Observation) (a : String) :
    a ∈ keysOf (mapSet m k v) ↔ a ∈ keysOf m ∨ a = k := by
  rw [keysOf_mapSet]
  by_cases h : k ∈ keysOf m
  · simp only [if_pos h]
    constructor
    · exact fun ha => Or.inl ha
    · rintro (ha | rfl)
      · exact ha
      · exact h
  · simp [if_neg h]

theorem nodup_keysOf_mapSet (m : List MapEntry) (k : String) (v : Observation)
    (h : (keysOf m).Nodup) : (keysOf (mapSet m k v)).Nodup := by
  rw [keysOf_mapSet]
  by_cases hk : k ∈ keysOf m
  · simpa [hk] using h
  · simp [hk, List.nodup_append, h]

theorem mapGet_mapSet (m : List MapEntry) (k : String) (v : Observation) (a : String) :
    mapGet a (mapSet m k v) = if k = a then some v else mapGet a m := by
  induction m with
  | nil => simp [mapSet, mapGet]
  | cons e rest ih =>
    obtain ⟨k1, v1⟩ := e
    by_cases h : k1 = k
    · subst h
      by_cases ha : k1 = a
      · subst ha; simp [mapSet, mapGet]
      · simp [mapSet, mapGet, ha]
    · by_cases ha : k1 = a
      · subst ha
        have : ¬ k = k1 := fun hk => h hk.symm
        simp [mapSet, h, mapGet, this]
      · simp [mapSet, h, mapGet, ha, ih]

theorem mapSetAll_nil (m : List MapEntry) : mapSetAll m [] = m := rfl

theorem mapSetAll_cons (m : List MapEntry) (o : Observation) (t : List Observation) :
    mapSetAll m (o :: t) = mapSetAll (mapSet m (mergeKey o) o) t := rfl

theorem mem_keysOf_mapSetAll (l : List Observation) (m : List MapEntry) (a : String) :
    a ∈ keysOf (mapSetAll m l) ↔ a ∈ keysOf m ∨ a ∈ l.map mergeKey := by
  induction l generalizing m with
  | nil => simp [mapSetAll_nil]
  | cons o t ih =>
    rw [mapSetAll_cons, ih, mem_keysOf_mapSet]
    simp only [List.map_cons, List.mem_cons]
    constructor
    · rintro ((ha | rfl) | ha)
      · exact Or.inl ha
      · exact Or.inr (Or.inl rfl)
      · exact Or.inr (Or.inr ha)
    · rintro (ha | rfl | ha)
      · exact Or.inl (Or.inl ha)
      · exact Or.inl (Or.inr rfl)
      · exact Or.inr ha

theorem nodup_keysOf_mapSetAll (l : List Observation) (m : List MapEntry)
    (h : (keysOf m).Nodup) : (keysOf (mapSetAll m l)).Nodup := by
  induction l generalizing m with
  | nil => simpa [mapSetAll_nil] using h
  | cons o t ih =>
    rw [mapSetAll_cons]
    exact ih _ (nodup_keysOf_mapSet _ _ _ h)

theorem keysOf_mapSetAll_of_mem (l : List Observation) (m : List MapEntry)
    (h : ∀ o ∈ l, mergeKey o ∈ keysOf m) : keysOf (mapSetAll m l) = keysOf m := by
  induction l generalizing m with
  | nil => rfl
  | cons o t ih =>
    rw [mapSetAll_cons]
    have hset : mapSet m (mergeKey o) o = m ∨ keysOf (mapSet m (mergeKey o) o) = keysOf m := by
      right
      rw [keysOf_mapSet, if_pos (h o (List.mem_cons_self o t))]
    have hkeys : keysOf (mapSet m (mergeKey o) o) = keysOf m := by
      rw [keysOf_mapSet, if_pos (h o (List.mem_cons_self o t))]
    rw [ih _ (fun x hx => by rw [hkeys]; exact h x (List.mem_cons_of_mem o hx)), hkeys]

theorem mapGet_mapSetAll (l : List Observation) (m : List MapEntry) (a : String) :
    mapGet a (mapSetAll m l) =
      (match lastWithKey a l with
       | some v => some v
       | none => mapGet a m) := by
  induction l generalizing m with
  | nil => simp [mapSetAll_nil, lastWithKey]
  | cons o t ih =>
    rw [mapSetAll_cons, ih]
    cases h : lastWithKey a t with
    | some v => simp [lastWithKey, h]
    | none =>
      by_cases hk : mergeKey o = a
      · simp [lastWithKey, h, hk, mapGet_mapSet]
      · simp [lastWithKey, h, hk, mapGet_mapSet]

theorem entryKey_mapSet (m : List MapEntry) (k : String) (v : Observation)
    (he : ∀ e ∈ m, e.1 = mergeKey e.2) (hk : k = mergeKey v) :
    ∀ e ∈ mapSet m k v, e.1 = mergeKey e.2 := by
  induction m with
  | nil =>
    intro e hmem
    simp only [mapSet, List.mem_singleton] at hmem
    subst hmem; exact hk
  | cons e1 rest ih =>
    obtain ⟨k1, v1⟩ := e1
    intro e hmem
    by_cases h : k1 = k
    · simp only [mapSet, if_pos h, List.mem_cons] at hmem
      rcases hmem with rfl | hmem
      · exact hk
      · exact he e (List.mem_cons_of_mem _ hmem)
    · simp only [mapSet, if_neg h, List.mem_cons] at hmem
      rcases hmem with rfl | hmem
      · exact he (k1, v1) (List.mem_cons_self _ _)
      · exact ih (fun x hx => he x (List.mem_cons_of_mem _ hx)) e hmem

theorem entryKey_mapSetAll (l : List Observation) (m : List MapEntry)
    (he : ∀ e ∈ m, e.1 = mergeKey e.2) :
    ∀ e ∈ mapSetAll m l, e.1 = mergeKey e.2 := by
  induction l generalizing m with
  | nil => simpa [mapSetAll_nil] using he
  | cons o t ih =>
    rw [mapSetAll_cons]
    exact ih _ (entryKey_mapSet _ _ _ he rfl)

theorem keysOf_eq_map_mergeKey (m : List MapEntry)
    (he : ∀ e ∈ m, e.1 = mergeKey e.2) :
    keysOf m = (m.map Prod.snd).map mergeKey := by
  induction m with
  | nil => rfl
  | cons e rest ih =>
    simp only [keysOf, List.map_cons, List.map_map] at *
    refine congrArg₂ (· :: ·) (he e (List.mem_cons_self _ _)) ?_
    exact ih (fun x hx => he x (List.mem_cons_of_mem _ hx))

theorem mapSet_of_not_mem (m : List MapEntry) (k : String) (v : Observation)
    (h : k ∉ keysOf m) : mapSet m k v = m ++ [(k, v)] := by
  induction m with
  | nil => rfl
  | cons e rest ih =>
    obtain ⟨k1, v1⟩ := e
    simp only [keysOf, List.map_cons, List.mem_cons] at h
    push_neg at h
    have h1 : ¬ k1 = k := fun hk => h.1 hk.symm
    simp [mapSet, h1, ih (by simpa [keysOf] using h.2)]

theorem mapSetAll_eq_append (l : List Observation) (m : List MapEntry)
    (hnd : (l.map mergeKey).Nodup) (hdisj : ∀ o ∈ l, mergeKey o ∉ keysOf m) :
    mapSetAll m l = m ++ l.map (fun o => (mergeKey o, o)) := by
  induction l generalizing m with
  | nil => simp [mapSetAll_nil]
  | cons o t ih =>
    rw [mapSetAll_cons, mapSet_of_not_mem _ _ _ (hdisj o (List.mem_cons_self _ _))]
    simp only [List.map_cons, List.nodup_cons] at hnd
    rw [ih _ hnd.2]
    · simp
    · intro x hx
      rw [keysOf]
      simp only [List.map_append, List.map_cons, List.map_nil, List.mem_append,
        List.mem_singleton]
      rintro (hmem | hk)
      · exact hdisj x (List.mem_cons_of_mem _ hx) hmem
      · exact hnd.1 (hk ▸ List.mem_map_of_mem mergeKey hx)

theorem mapGet_eq_some_of_mem (m : List MapEntry) (k : String) (v : Observation)
    (hnd : (keysOf m).Nodup) (hmem : (k, v) ∈ m) : mapGet k m = some v := by
  induction m with
  | nil => cases hmem
  | cons e rest ih =>
    obtain ⟨k1, v1⟩ := e
    simp only [keysOf, List.map_cons, List.nodup_cons] at hnd
    rcases List.mem_cons.mp hmem with heq | hmem
    · injection heq with hk hv
      subst hk; subst hv
      simp [mapGet]
    · by_cases h : k1 = k
      · subst h
        exact absurd (List.mem_map_of_mem Prod.fst hmem) hnd.1
      · simp only [mapGet, if_neg h]
        exact ih (by simpa [keysOf] using hnd.2) hmem

theorem mem_of_mapGet_eq_some (m : List MapEntry) (k : String) (v : Observation)
    (h : mapGet k m = some v) : (k, v) ∈ m := by
  induction m with
  | nil => cases h
  | cons e rest ih =>
    obtain ⟨k1, v1⟩ := e
    by_cases hk : k1 = k
    · subst hk
      simp only [mapGet, eq_self_iff_true, if_true, Option.some.injEq] at h
      subst h
      exact List.mem_cons_self _ _
    · simp only [mapGet, if_neg hk] at h
      exact List.mem_cons_of_mem _ (ih h)

theorem mapGet_eq_none_iff (m : List MapEntry) (k : String) :
    mapGet k m = none ↔ k ∉ keysOf m := by
  induction m with
  | nil => simp [mapGet, keysOf]
  | cons e rest ih =>
    obtain ⟨k1, v1⟩ := e
    by_cases hk : k1 = k
    · subst hk
      simp [mapGet, keysOf]
    · have : ¬ k = k1 := fun h => hk h.symm
      simp [mapGet, hk, keysOf, ih, this]

theorem mapEntries_ext (m1 m2 : List MapEntry)
    (hk : keysOf m1 = keysOf m2) (hnd : (keysOf m1).Nodup)
    (hget : ∀ k, mapGet k m1 = mapGet k m2) : m1 = m2 := by
  induction m1 generalizing m2 with
  | nil =>
    cases m2 with
    | nil => rfl
    | cons e t => simp [keysOf] at hk
  | cons e t ih =>
    obtain ⟨k, v⟩ := e
    cases m2 with
    | nil => simp [keysOf] at hk
    | cons e2 t2 =>
      obtain ⟨k2, v2⟩ := e2
      simp only [keysOf, List.map_cons, List.cons.injEq] at hk
      obtain ⟨rfl, hkt⟩ := hk
      simp only [keysOf, List.map_cons, List.nodup_cons] at hnd
      have hv : v = v2 := by
        have h1 := hget k
        simp only [mapGet, eq_self_iff_true, if_true, Option.some.injEq] at h1
        exact h1
      subst hv
      refine congrArg₂ (· :: ·) rfl (ih t2 hkt hnd.2 ?_)
      intro a
      by_cases ha : k = a
      · subst ha
        have h1 : mapGet k t = none := (mapGet_eq_none_iff _ _).mpr (by simpa [keysOf] using hnd.1)
        have h2 : mapGet k t2 = none := by
          rw [mapGet_eq_none_iff]
          show k ∉ List.map Prod.fst t2
          rw [← hkt]
          exact hnd.1
        rw [h1, h2]
      · have h1 := hget a
        simpa only [mapGet, if_neg ha] using h1

theorem mapGet_mapSetAll_of_last_some (l : List Observation) (m : List MapEntry)
    (a : String) (v : Observation) (h : lastWithKey a l = some v) :
    mapGet a (mapSetAll m l) = some v := by
  rw [mapGet_mapSetAll, h]

theorem mapGet_mapSetAll_of_last_none (l : List Observation) (m : List MapEntry)
    (a : String) (h : lastWithKey a l = none) :
    mapGet a (mapSetAll m l) = mapGet a m := by
  rw [mapGet_mapSetAll, h]

theorem entryKey_merged (c i : List Observation) :
    ∀ e ∈ mapSetAll (mapSetAll [] c) i, e.1 = mergeKey e.2 :=
  entryKey_mapSetAll i _ (entryKey_mapSetAll c [] (by simp))

theorem nodup_keys_merged (c i : List Observation) :
    (keysOf (mapSetAll (mapSetAll [] c) i)).Nodup :=
  nodup_keysOf_mapSetAll i _ (nodup_keysOf_mapSetAll c [] (by simp [keysOf]))

theorem mem_keys_merged (c i : List Observation) (a : String) :
    a ∈ keysOf (mapSetAll (mapSetAll [] c) i) ↔
      a ∈ c.map mergeKey ∨ a ∈ i.map mergeKey := by
  rw [mem_keysOf_mapSetAll, mem_keysOf_mapSetAll]
  simp [keysOf]

/-- The merge result is sorted by instant (non-decreasing). -/
theorem sorted_mergeChronologically (c i : List Observation) :
    (mergeChronologically c i).Sorted obsLE :=
  List.sorted_insertionSort obsLE _

/-- The merge keys of a merge result are pairwise distinct. -/
theorem nodup_mergeKeys_mergeChronologically (c i : List Observation) :
    ((mergeChronologically c i).map mergeKey).Nodup := by
  unfold mergeChronologically
  rw [((List.perm_insertionSort obsLE _).map mergeKey).nodup_iff]
  rw [← keysOf_eq_map_mergeKey _ (entryKey_merged c i)]
  exact nodup_keys_merged c i

/-- The merge keys of a merge result are exactly the union of the inputs'
merge keys. -/
theorem mem_mergeKeys_mergeChronologically (c i : List Observation) (a : String) :
    a ∈ (mergeChronologically c i).map mergeKey ↔
      a ∈ c.map mergeKey ∨ a ∈ i.map mergeKey := by
  unfold mergeChronologically
  rw [((List.perm_insertionSort obsLE _).map mergeKey).mem_iff]
  rw [← keysOf_eq_map_mergeKey _ (entryKey_merged c i)]
  exact mem_keys_merged c i a

/-- Merging the same batch a second time does not change the series. -/
theorem mergeChronologically_idem (s b : List Observation) :
    mergeChronologically (mergeChronologically s b) b = mergeChronologically s b := by
  have houtNodup : ((mergeChronologically s b).map mergeKey).Nodup :=
    nodup_mergeKeys_mergeChronologically s b
  have houtSorted : (mergeChronologically s b).Sorted obsLE :=
    sorted_mergeChronologically s b
  have hA : mapSetAll [] (mergeChronologically s b) =
      (mergeChronologically s b).map (fun o => (mergeKey o, o)) := by
    have h := mapSetAll_eq_append (mergeChronologically s b) [] houtNodup
      (by simp [keysOf])
    simpa using h
  have hkeysE : keysOf ((mergeChronologically s b).map (fun o => (mergeKey o, o))) =
      (mergeChronologically s b).map mergeKey := by
    simp [keysOf, List.map_map]
  have hmemB : ∀ o ∈ b, mergeKey o ∈
      keysOf ((mergeChronologically s b).map (fun o => (mergeKey o, o))) := by
    intro o ho
    rw [hkeysE]
    exact (mem_mergeKeys_mergeChronologically s b (mergeKey o)).mpr
      (Or.inr (List.mem_map_of_mem mergeKey ho))
  have hndE : (keysOf ((mergeChronologically s b).map (fun o => (mergeKey o, o)))).Nodup := by
    rw [hkeysE]; exact houtNodup
  have hget : ∀ a, mapGet a
      (mapSetAll ((mergeChronologically s b).map (fun o => (mergeKey o, o))) b) =
      mapGet a ((mergeChronologically s b).map (fun o => (mergeKey o, o))) := by
    intro a
    cases hlast : lastWithKey a b with
    | none => exact mapGet_mapSetAll_of_last_none b _ a hlast
    | some v =>
      rw [mapGet_mapSetAll_of_last_some b _ a v hlast]
      have h1 : mapGet a (mapSetAll (mapSetAll [] s) b) = some v :=
        mapGet_mapSetAll_of_last_some b _ a v hlast
      have h2 : (a, v) ∈ mapSetAll (mapSetAll [] s) b := mem_of_mapGet_eq_some _ _ _ h1
      have h3 : a = mergeKey v := entryKey_merged s b (a, v) h2
      have h4 : v ∈ (mapSetAll (mapSetAll [] s) b).map Prod.snd :=
        List.mem_map_of_mem Prod.snd h2
      have h5 : v ∈ mergeChronologically s b := by
        unfold mergeChronologically
        exact (List.mem_insertionSort obsLE).mpr h4
      have h6 : (mergeKey v, v) ∈ (mergeChronologically s b).map (fun o => (mergeKey o, o)) :=
        List.mem_map_of_mem _ h5
      have h7 := mapGet_eq_some_of_mem _ _ _ hndE h6
      rw [h3, h7]
  have hkeys2 : keysOf (mapSetAll
        ((mergeChronologically s b).map (fun o => (mergeKey o, o))) b) =
      keysOf ((mergeChronologically s b).map (fun o => (mergeKey o, o))) :=
    keysOf_mapSetAll_of_mem b _ hmemB
  have hE : mapSetAll ((mergeChronologically s b).map (fun o => (mergeKey o, o))) b =
      (mergeChronologically s b).map (fun o => (mergeKey o, o)) :=
    mapEntries_ext _ _ hkeys2 (by rw [hkeys2]; exact hndE) hget
  show ((mapSetAll (mapSetAll [] (mergeChronologically s b)) b).map Prod.snd).insertionSort
      obsLE = mergeChronologically s b
  rw [hA, hE]
  have hsnd : ∀ l : List Observation, (l.map (fun o => (mergeKey o, o))).map Prod.snd = l := by
    intro l
    induction l with
    | nil => rfl
    | cons o t ih => simp only [List.map_cons, ih]
  rw [hsnd]
  exact List.Sorted.insertionSort_eq houtSorted

theorem mem_of_getLast?_eq_some {l : List Observation} {a : Observation}
    (h : l.getLast? = some a) : a ∈ l := by
  obtain ⟨hne, heq⟩ := List.mem_getLast?_eq_getLast (show a ∈ l.getLast? from h)
  rw [heq]
  exact List.getLast_mem hne

/-- Ingesting the same batch twice leaves the whole engine state exactly as
after ingesting it once. -/
theorem ingest_idem (env : JSEnv) (st : StreamState) (b : List Observation) :
    ingest env (ingest env st b) b = ingest env st b := by
  by_cases h : b.isEmpty
  · simp [ingest, h]
  · simp [ingest, h, mergeChronologically_idem]

/-- `lo ≤ clamp x lo hi` whenever the window is non-trivial. -/
theorem le_jsClamp {α : Type} [LinearOrder α] (x lo hi : α) (h : lo ≤ hi) :
    lo ≤ jsClamp x lo hi :=
  le_min (le_max_right x lo) h

/-- `clamp x lo hi ≤ hi`. -/
theorem jsClamp_le {α : Type} [LinearOrder α] (x lo hi : α) : jsClamp x lo hi ≤ hi :=
  min_le_right _ _

/-- `hypot(cos d · w, sin d · w) = w` for `w ≥ 0`. -/
theorem hypot_cos_sin (d w : ℝ) (hw : 0 ≤ w) :
    jsHypot (Real.cos d * w) (Real.sin d * w) = w := by
  rw [jsHypot]
  have hsq : (Real.cos d * w) ^ 2 + (Real.sin d * w) ^ 2 = w ^ 2 := by
    have h := Real.sin_sq_add_cos_sq d
    nlinarith [h]
  rw [hsq, Real.sqrt_sq hw]

/-- The synthetic series always has exactly `count` elements. -/
theorem length_buildSyntheticObservations (env : JSEnv) (startMs : ℤ) (count : ℕ)
    (rand : ℕ → ℕ → ℝ) :
    (buildSyntheticObservations env startMs count rand).length = count := by
  simp [buildSyntheticObservations]

/-- Every synthetic observation satisfies the wind-speed invariant. -/
theorem windSpeed_buildSyntheticObservations (env : JSEnv) (startMs : ℤ) (count : ℕ)
    (rand : ℕ → ℕ → ℝ) :
    ∀ o ∈ buildSyntheticObservations env startMs count rand,
      o.windSpeed = jsHypot o.speed_u o.speed_v := by
  intro o ho
  simp only [buildSyntheticObservations, List.mem_map, List.mem_range] at ho
  obtain ⟨index, _hidx, rfl⟩ := ho
  refine (hypot_cos_sin _ _ ?_).symm
  exact le_trans (by norm_num : (0 : ℝ) ≤ 2) (le_jsClamp _ 2 60 (by norm_num))

/-- The normalizer always recomputes `windSpeed` from the components. -/
theorem windSpeed_normalizeObservation (env : JSEnv) (freshId : String)
    (raw : RawObservation) :
    (normalizeObservation env freshId raw).windSpeed =
      jsHypot (normalizeObservation env freshId raw).speed_u
        (normalizeObservation env freshId raw).speed_v := rfl

/-- `coalesceNumber` is first-finite-wins over `Number()` conversion. -/
theorem coalesceNumber_eq_findSome (values : List JSVal) (fallback : ℚ) :
    coalesceNumber values fallback = (values.findSome? jsToNumber).getD fallback := by
  induction values with
  | nil => rfl
  | cons v rest ih =>
    cases h : jsToNumber v with
    | some q => simp [coalesceNumber, List.findSome?_cons, h]
    | none => simp [coalesceNumber, List.findSome?_cons, h, ih]

/-- Bounds of `setProgress` on a non-empty slice. -/
theorem setProgress_bounds (len : ℕ) (i : ℤ) (p : ℚ) (hlen : 0 < len) :
    0 ≤ setProgress len i p ∧ setProgress len i p < (len : ℤ) := by
  have hlen0 : len ≠ 0 := Nat.pos_iff_ne_zero.mp hlen
  rw [setProgress, if_neg hlen0]
  have hc0 : 0 ≤ jsClamp p 0 1 := le_jsClamp p 0 1 (by norm_num)
  have hc1 : jsClamp p 0 1 ≤ 1 := jsClamp_le p 0 1
  have hL : (0 : ℚ) ≤ (len : ℚ) - 1 := by
    have h1 : (1 : ℚ) ≤ (len : ℚ) := by exact_mod_cast hlen
    linarith
  constructor
  · rw [jsRound]
    refine Int.le_floor.mpr ?_
    have := mul_nonneg hc0 hL
    push_cast
    linarith
  · rw [jsRound]
    refine Int.floor_lt.mpr ?_
    have h1 : jsClamp p 0 1 * ((len : ℚ) - 1) ≤ (len : ℚ) - 1 := by
      calc jsClamp p 0 1 * ((len : ℚ) - 1) ≤ 1 * ((len : ℚ) - 1) :=
            mul_le_mul_of_nonneg_right hc1 hL
        _ = (len : ℚ) - 1 := one_mul _
    push_cast
    linarith

/-- Claim C1 (amended): for every poll whose fetch fails after data has been
ingested (`hasData`, in particular whenever the resident Series is
non-empty), the Series is left unchanged and the thrown message is attached
as the error — but the status is set to `error`, not kept at `ready`. -/
theorem claimC1 (env : JSEnv) (cfg : PollConfig) (st : StreamState) (msg : String)
    (h : st.hasData = true) :
    (pull env cfg st (.failure msg)).observations = st.observations ∧
      (pull env cfg st (.failure msg)).status = .error ∧
      (pull env cfg st (.failure msg)).error = some msg := by
  simp [pull, h]

/-- Claim C1 counterexample: from a ready state holding one observation, a
failing fetch leaves the status `error`, not `ready` as the claim states. -/
theorem claimC1_counterexample :
    stReady.observations ≠ [] ∧
      (pull env0 cfg0 stReady (.failure "boom")).status ≠ StreamStatus.ready := by
  refine ⟨by simp [stReady], ?_⟩
  have h : (pull env0 cfg0 stReady (.failure "boom")).status = .error := by
    simp [pull, stReady]
  rw [h]
  decide

/-- Claim C1 witness: the amended claim at a concrete ready state. -/
theorem claimC1_witness :
    (pull env0 cfg0 stReady (.failure "boom")).observations = stReady.observations :=
  (claimC1 env0 cfg0 stReady "boom" rfl).1

/-- Claim C3: when a fetch fails with no previously ingested data, the
engine ingests the synthetic series (non-empty for a positive `limit`),
finishes `ready`, and attaches the degraded-mode message. -/
theorem claimC3 (env : JSEnv) (cfg : PollConfig) (st : StreamState) (msg : String)
    (h0 : st.hasData = false) (h1 : 0 < cfg.limit) :
    (pull env cfg st (.failure msg)).observations =
        buildSyntheticObservations env cfg.sinceMs cfg.limit cfg.rand ∧
      (pull env cfg st (.failure msg)).observations ≠ [] ∧
      (pull env cfg st (.failure msg)).status = .ready ∧
      (pull env cfg st (.failure msg)).error = some degradedMessage := by
  have hobs : (pull env cfg st (.failure msg)).observations =
      buildSyntheticObservations env cfg.sinceMs cfg.limit cfg.rand := by
    simp [pull, h0]
  refine ⟨hobs, ?_, by simp [pull, h0], by simp [pull, h0]⟩
  rw [hobs]
  intro hnil
  have hlen := length_buildSyntheticObservations env cfg.sinceMs cfg.limit cfg.rand
  rw [hnil] at hlen
  simp at hlen
  omega

/-- Claim C3 witness: the degraded fallback at a concrete empty state. -/
theorem claimC3_witness :
    (pull env0 cfg0 st0 (.failure "down")).status = .ready :=
  (claimC3 env0 cfg0 st0 "down" rfl (show 0 < cfg0.limit from Nat.one_pos)).2.2.1

/-- Claim C5: ingesting the same batch twice in a row yields a state (and in
particular a Series) identical to ingesting it once. -/
theorem claimC5 (env : JSEnv) (st : StreamState) (batch : List Observation) :
    ingest env (ingest env st batch) batch = ingest env st batch :=
  ingest_idem env st batch

/-- Claim C4 (amended): every ingest into a series satisfying the Series
invariant yields a series that is sorted non-decreasing by instant, whose
merge keys (`id`, falling back to `timestamp` when the id is empty) are
exactly the union of the input keys without duplicates; distinct elements
can still share the same (empty) `id`. -/
theorem claimC4 (env : JSEnv) (st : StreamState) (batch : List Observation)
    (h : SeriesInvariant st.observations) :
    SeriesInvariant (ingest env st batch).observations ∧
      (∀ k, k ∈ (ingest env st batch).observations.map mergeKey ↔
        k ∈ st.observations.map mergeKey ∨ k ∈ batch.map mergeKey) := by
  cases batch with
  | nil =>
    have hobs : ingest env st [] = st := by simp [ingest]
    rw [hobs]
    refine ⟨h, ?_⟩
    intro k
    simp
  | cons o t =>
    have hobs : (ingest env st (o :: t)).observations =
        mergeChronologically st.observations (o :: t) := by
      simp [ingest]
    rw [hobs]
    refine ⟨⟨sorted_mergeChronologically _ _, nodup_mergeKeys_mergeChronologically _ _⟩, ?_⟩
    exact mem_mergeKeys_mergeChronologically _ _

/-- Claim C4 counterexample: merging two observations with empty `id` and
distinct timestamps keeps both, so two elements of the resulting Series
share the same `id` — refuting the claim's "no two of its elements share
the same id". -/
theorem claimC4_counterexample :
    ¬ (((ingest env0 st0 [obsAt "" "ta" 0, obsAt "" "tb" 1000]).observations.map
      Observation.id).Nodup) := by decide

/-- Claim C4 witness: the amended claim at a concrete empty series. -/
theorem claimC4_witness :
    SeriesInvariant (ingest env0 st0 [obsAt "a" "t" 5]).observations :=
  (claimC4 env0 st0 [obsAt "a" "t" 5] ⟨List.sorted_nil, List.nodup_nil⟩).1

/-- Claim C2 (amended): after a successful fetch, if at least one record was
returned the cursor is one second past the instant of the **last** returned
record (`floor(last/1000) + 1` — not the maximum); with no records and a
numeric `next_since` hint the hint is adopted verbatim; otherwise nothing
changes.  The cursor is non-decreasing provided every returned instant is at
least `1000 ×` the current cursor and every adopted hint is at least the
current cursor. -/
theorem claimC2 (st : StreamState) (normalized : List Observation)
    (nextSince : Option ℚ) :
    (∀ last, normalized.getLast? = some last →
        (applyCursorAdvance st normalized nextSince).cursor =
          ((⌊(last.instantMs : ℚ) / 1000⌋ : ℤ) : ℚ) + 1) ∧
    (normalized = [] → ∀ n, nextSince = some n →
        (applyCursorAdvance st normalized nextSince).cursor = n) ∧
    (normalized = [] → nextSince = none →
        applyCursorAdvance st normalized nextSince = st) ∧
    ((∀ o ∈ normalized, st.cursor * 1000 ≤ (o.instantMs : ℚ)) →
      (∀ n, nextSince = some n → st.cursor ≤ n) →
        st.cursor ≤ (applyCursorAdvance st normalized nextSince).cursor) := by
  refine ⟨?_, ?_, ?_, ?_⟩
  · intro last hlast
    simp [applyCursorAdvance, hlast]
  · rintro rfl n rfl
    simp [applyCursorAdvance]
  · rintro rfl rfl
    simp [applyCursorAdvance]
  · intro hrec hhint
    cases hlast : normalized.getLast? with
    | some last =>
      have hmem : last ∈ normalized := mem_of_getLast?_eq_some hlast
      have h1 : st.cursor * 1000 ≤ (last.instantMs : ℚ) := hrec last hmem
      have h2 : st.cursor ≤ (last.instantMs : ℚ) / 1000 := by
        rw [le_div_iff₀ (by norm_num : (0 : ℚ) < 1000)]
        exact h1
      have h3 : ((last.instantMs : ℚ) / 1000) <
          ((⌊(last.instantMs : ℚ) / 1000⌋ : ℤ) : ℚ) + 1 := Int.lt_floor_add_one _
      simp only [applyCursorAdvance, hlast]
      linarith
    | none =>
      cases hns : nextSince with
      | some n =>
        simp only [applyCursorAdvance, hlast]
        exact hhint n hns
      | none =>
        simp [applyCursorAdvance, hlast]

/-- Claim C2 counterexample: a successful fetch whose batch is not sorted —
instants 5000 ms then 2000 ms — sets the cursor from the last record (to 3),
not from the maximal instant (6) as the claim states. -/
theorem claimC2_counterexample :
    (applyCursorAdvance st0 [obsAt "a" "t1" 5000, obsAt "b" "t2" 2000] none).cursor ≠
      specCursorAfterFetch st0.cursor [obsAt "a" "t1" 5000, obsAt "b" "t2" 2000] none := by
  have hL : (applyCursorAdvance st0 [obsAt "a" "t1" 5000, obsAt "b" "t2" 2000] none).cursor
      = ((⌊((2000 : ℤ) : ℚ) / 1000⌋ : ℤ) : ℚ) + 1 := rfl
  have hR : specCursorAfterFetch st0.cursor [obsAt "a" "t1" 5000, obsAt "b" "t2" 2000] none
      = ((⌊((maxInstantMs [obsAt "a" "t1" 5000, obsAt "b" "t2" 2000] : ℤ) : ℚ) / 1000⌋ : ℤ) : ℚ)
        + 1 := rfl
  have hmax : maxInstantMs [obsAt "a" "t1" 5000, obsAt "b" "t2" 2000] = 5000 := by
    simp only [maxInstantMs, List.foldl_cons, List.foldl_nil, obsAt]
    omega
  have h2 : ((2000 : ℤ) : ℚ) / 1000 = ((2 : ℤ) : ℚ) := by norm_num
  have h5 : ((5000 : ℤ) : ℚ) / 1000 = ((5 : ℤ) : ℚ) := by norm_num
  rw [hL, hR, hmax, h2, h5, Int.floor_intCast, Int.floor_intCast]
  norm_num

/-- Claim C2 witness: the hint arm of the amended claim at concrete input. -/
theorem claimC2_witness :
    (applyCursorAdvance st0 [] (some 5)).cursor = 5 :=
  (claimC2 st0 [] (some 5)).2.1 rfl 5 rfl

/-- Claim C6: on both code paths — the normalizer and the synthetic
generator — `windSpeed` equals `hypot(speed_u, speed_v)`. -/
theorem claimC6 :
    (∀ (env : JSEnv) (freshId : String) (raw : RawObservation),
        (normalizeObservation env freshId raw).windSpeed =
          jsHypot (normalizeObservation env freshId raw).speed_u
            (normalizeObservation env freshId raw).speed_v) ∧
    (∀ (env : JSEnv) (startMs : ℤ) (count : ℕ) (rand : ℕ → ℕ → ℝ),
        ∀ o ∈ buildSyntheticObservations env startMs count rand,
          o.windSpeed = jsHypot o.speed_u o.speed_v) :=
  ⟨windSpeed_normalizeObservation, windSpeed_buildSyntheticObservations⟩

/-- Claim C6 witness: the wind-speed invariant at a concrete raw record. -/
theorem claimC6_witness :
    (normalizeObservation env0 "" rawNull).windSpeed =
      jsHypot (normalizeObservation env0 "" rawNull).speed_u
        (normalizeObservation env0 "" rawNull).speed_v :=
  claimC6.1 env0 "" rawNull

/-- Claim C9 (amended): the normalizer is total, and each numeric field is
the first-present-wins coalesce over its fixed alias list under JavaScript
`Number()` conversion — where `null` and the empty string convert to `0`,
booleans to `0`/`1`, and numeric strings to their parsed value — with
fallback `0` when no candidate converts to a finite number. -/
theorem claimC9 :
    (∀ (env : JSEnv) (freshId : String) (raw : RawObservation),
      (normalizeObservation env freshId raw).altitude =
          ((coalesceNumber [raw.altitude, raw.altitude_m, raw.altitude_agl,
            raw.altitude_from_gps] 0 : ℚ) : ℝ) ∧
      (normalizeObservation env freshId raw).temperature =
          ((coalesceNumber [raw.temperature, raw.temperature_c, raw.temp,
            raw.temperature_celsius] 0 : ℚ) : ℝ) ∧
      (normalizeObservation env freshId raw).humidity =
          ((coalesceNumber [raw.humidity, raw.relative_humidity, raw.rh,
            raw.humidity_percent] 0 : ℚ) : ℝ) ∧
      (normalizeObservation env freshId raw).speed_u =
          ((coalesceNumber [raw.speed_u, raw.wind_u, raw.u_component] 0 : ℚ) : ℝ) ∧
      (normalizeObservation env freshId raw).speed_v =
          ((coalesceNumber [raw.speed_v, raw.wind_v, raw.v_component] 0 : ℚ) : ℝ)) ∧
    (∀ (values : List JSVal) (fallback : ℚ),
      coalesceNumber values fallback = (values.findSome? jsToNumber).getD fallback) ∧
    (∀ (s : String) (q : ℚ), parseJSNumberString s = some q →
      jsToNumber (.vstr s) = some q) := by
  refine ⟨?_, coalesceNumber_eq_findSome, ?_⟩
  · intro env freshId raw
    exact ⟨rfl, rfl, rfl, rfl, rfl⟩
  · intro s q h
    simpa [jsToNumber] using h

/-- Claim C9 counterexample: with `altitude: null` and `altitude_m: 7`, the
code returns 0 (JavaScript `Number(null) = 0` is finite and wins), while the
claim's "first candidate whose content is a finite number" selects 7. -/
theorem claimC9_counterexample :
    (normalizeObservation env0 "" rawNull).altitude ≠
      ((specCoalesce [rawNull.altitude, rawNull.altitude_m, rawNull.altitude_agl,
        rawNull.altitude_from_gps] 0 : ℚ) : ℝ) := by
  have h1 : (normalizeObservation env0 "" rawNull).altitude = ((0 : ℚ) : ℝ) := rfl
  have h2 : specCoalesce [rawNull.altitude, rawNull.altitude_m, rawNull.altitude_agl,
      rawNull.altitude_from_gps] 0 = 7 := by decide
  rw [h1, h2]
  intro h
  exact absurd (by exact_mod_cast h : (0 : ℚ) = 7) (by norm_num)

/-- Claim C9 witness: a numeric string parses to its value. -/
theorem claimC9_witness : jsToNumber (.vstr "42") = some 42 :=
  claimC9.2.2 "42" 42 (by decide)

/-- Claim C7: while playing on a slice with at least two elements and a next
element, the scheduled delay is `clamp(delta / max(0.25, speed), 400 ms,
10000 ms)`; on the example slice at 0 s / 10 s / 30 s the pre-clamp delays
at speed 1 are 10000 ms and 20000 ms (halving at speed 2) and every
scheduled delay lands in the clamp window. -/
theorem claimC7 (observations : List Observation) (speed : ℚ) (index : ℕ)
    (current next : Observation)
    (h2 : 2 ≤ observations.length)
    (hc : observations[index]? = some current)
    (hn : observations[index + 1]? = some next) :
    scheduledDelay observations true index speed =
        some (jsClamp (((next.instantMs - current.instantMs : ℤ) : ℚ) / max (1 / 4) speed)
          MIN_DELAY_MS MAX_DELAY_MS) ∧
      (((10000 : ℤ) - 0 : ℚ) / safeSpeed 1 = 10000 ∧
        ((30000 : ℤ) - 10000 : ℚ) / safeSpeed 1 = 20000 ∧
        ((10000 : ℤ) - 0 : ℚ) / safeSpeed 2 = 5000 ∧
        ((30000 : ℤ) - 10000 : ℚ) / safeSpeed 2 = 10000 ∧
        scheduledDelay exampleSlice true 0 1 = some 10000 ∧
        scheduledDelay exampleSlice true 1 1 = some 10000 ∧
        scheduledDelay exampleSlice true 0 2 = some 5000 ∧
        scheduledDelay exampleSlice true 1 2 = some 10000) := by
  constructor
  · have hlen : ¬ (observations.length < 2) := not_lt.mpr h2
    simp [scheduledDelay, hlen, hc, hn, safeSpeed]
  · refine ⟨by norm_num [safeSpeed], by norm_num [safeSpeed], by norm_num [safeSpeed],
      by norm_num [safeSpeed], ?_, ?_, ?_, ?_⟩ <;>
      norm_num [scheduledDelay, exampleSlice, obsAt, safeSpeed, jsClamp,
        MIN_DELAY_MS, MAX_DELAY_MS, min_def, max_def]

/-- Claim C7 witness: the delay formula on the example slice at index 0 and
speed 1. -/
theorem claimC7_witness :
    scheduledDelay exampleSlice true 0 1 =
      some (jsClamp ((((obsAt "b" "t1" 10000).instantMs -
          (obsAt "a" "t0" 0).instantMs : ℤ) : ℚ) / max (1 / 4) 1)
        MIN_DELAY_MS MAX_DELAY_MS) :=
  (claimC7 exampleSlice 1 0 (obsAt "a" "t0" 0) (obsAt "b" "t1" 10000)
    (by decide) rfl rfl).1

/-- Claim C8: with a non-empty slice and an in-bounds index, every playback
operation — timer advance, stepForward, stepBackward, setProgress, and the
slice-change reclamp — keeps the index in `[0, length)`; and when the slice
shrinks to a smaller non-zero length `n`, the post-change index is exactly
`min i (n - 1)`, preserving relative position. -/
theorem claimC8 (len : ℕ) (i : ℤ) (hlen : 0 < len) (h0 : 0 ≤ i)
    (hi : i < (len : ℤ)) :
    (0 ≤ advanceIndex len i ∧ advanceIndex len i < (len : ℤ)) ∧
    (0 ≤ stepForward len i ∧ stepForward len i < (len : ℤ)) ∧
    (0 ≤ stepBackward i ∧ stepBackward i < (len : ℤ)) ∧
    (∀ p : ℚ, 0 ≤ setProgress len i p ∧ setProgress len i p < (len : ℤ)) ∧
    (0 ≤ reclampIndex len i ∧ reclampIndex len i < (len : ℤ)) ∧
    (∀ (n : ℕ) (j : ℤ), 0 < n → reclampIndex n j = min j ((n : ℤ) - 1)) := by
  have hlen0 : len ≠ 0 := Nat.pos_iff_ne_zero.mp hlen
  refine ⟨?_, ?_, ?_, fun p => setProgress_bounds len i p hlen, ?_, ?_⟩
  · simp only [advanceIndex]
    omega
  · simp only [stepForward, if_neg hlen0]
    omega
  · simp only [stepBackward]
    omega
  · simp only [reclampIndex, if_neg hlen0]
    omega
  · intro n j hn
    simp only [reclampIndex, if_neg (Nat.pos_iff_ne_zero.mp hn)]

/-- Claim C8 witness: bounds of the timer advance on a concrete slice. -/
theorem claimC8_witness :
    0 ≤ advanceIndex 4 2 ∧ advanceIndex 4 2 < ((4 : ℕ) : ℤ) :=
  (claimC8 4 2 (by norm_num) (by norm_num) (by norm_num)).1

/-- Claim C10: on a non-empty slice, `setProgress p` sets the index to
`round(clamp(p, 0, 1) × (length − 1))`, which always lies in
`[0, length)` — for any rational `p`, also outside `[0, 1]`; on an empty
slice the index is unchanged. -/
theorem claimC10 (len : ℕ) (i : ℤ) (p : ℚ) :
    (0 < len →
      setProgress len i p = jsRound (jsClamp p 0 1 * ((len : ℚ) - 1)) ∧
      0 ≤ setProgress len i p ∧ setProgress len i p < (len : ℤ)) ∧
    (len = 0 → setProgress len i p = i) := by
  constructor
  · intro hlen
    refine ⟨?_, (setProgress_bounds len i p hlen).1, (setProgress_bounds len i p hlen).2⟩
    simp [setProgress, Nat.pos_iff_ne_zero.mp hlen]
  · intro h
    simp [setProgress, h]

/-- Claim C10 witness: `setProgress (1/2)` on a five-element slice. -/
theorem claimC10_witness :
    setProgress 5 0 (1 / 2) = jsRound (jsClamp (1 / 2) 0 1 * (((5 : ℕ) : ℚ) - 1)) :=
  ((claimC10 5 0 (1 / 2)).1 (by norm_num)).1
